import Mathlib

/-!
Verification of the OGDF geometry kernel specification: generic points and
lines, polyline normalization (iterative fixpoint simplification with optional
source/target anchors and a minimum-angle threshold), and infinite-line
intersection classification.

The repository sources provide `test/src/basic/geometry.cpp`, the bandit test
suite exercising `GenericPoint`, `GenericLine` and `GenericPolyline` from
`ogdf/basic/geometry.h`.  The geometry header itself is not among the provided
sources, so the geometric operations are modelled from the specification and
checked against the literal test vectors of the test file.

Angle comparisons are made exact: the removability test "interior angle at a
point is at least `minAngle`" is equivalent to "the bend angle between the
incoming vector `u` and the outgoing vector `v` is at most `π - minAngle`",
which (for nonzero vectors) is `cos(bend) ≥ cos(π - minAngle)` with
`cos(bend) = dot(u,v) / (‖u‖‖v‖)`.  A threshold is therefore represented by
the sign of `c = cos(π - minAngle)` together with the fraction `c² = num/den`,
and the comparison is carried out on squares with cleared denominators,
avoiding any real square roots or trigonometric functions while agreeing
exactly with the floating computation on the coordinates exercised by the
tests.
-/

/-- Modelled from the spec: `GenericPoint<T>` of `ogdf/basic/geometry.h`
(absent from the provided sources): a 2-D coordinate pair over a numeric
type, a plain value with exact component-wise equality. -/
structure GenericPoint (T : Type) where
  x : T
  y : T
deriving DecidableEq, Repr

/-- A two-dimensional vector with integer coordinates: the exact value of a
coordinate difference of integer points. -/
abbrev ZVec := ℤ × ℤ

/-- A two-dimensional vector with rational coordinates, standing for the
floating accumulator the spec prescribes for angle computations. -/
abbrev QVec := ℚ × ℚ

/-- Dot product of two integer vectors. -/
def dotZ (u v : ZVec) : ℤ := u.1 * v.1 + u.2 * v.2

/-- Squared Euclidean norm of an integer vector. -/
def sqnormZ (u : ZVec) : ℤ := u.1 * u.1 + u.2 * u.2

/-- Dot product of two rational vectors. -/
def dotQ (u v : QVec) : ℚ := u.1 * v.1 + u.2 * v.2

/-- Cross product (z-component) of two rational vectors. -/
def crossQ (u v : QVec) : ℚ := u.1 * v.2 - u.2 * v.1

/-- Squared Euclidean norm of a rational vector. -/
def sqnormQ (u : QVec) : ℚ := u.1 * u.1 + u.2 * u.2

/-- Modelled from the spec: the `minAngle` parameter of
`GenericPolyline::normalize`, represented exactly.  The removability test
compares `cos(bendAngle)` against `c = cos(π - minAngle)`; the threshold
stores the sign of `c` (`nonneg`) and the fraction `c² = num / den` with
`den > 0`, which determines the comparison exactly on rational or integer
coordinates. -/
structure Threshold where
  nonneg : Bool
  num : ℤ
  den : ℤ
deriving DecidableEq, Repr

/-- The default threshold `minAngle = π`: `c = cos 0 = 1`. -/
def minAnglePi : Threshold := ⟨true, 1, 1⟩

/-- The threshold `minAngle = 3π/4`: `c = cos(π/4) = √2/2`, `c² = 1/2`. -/
def minAngle34Pi : Threshold := ⟨true, 1, 2⟩

/-- The threshold `minAngle = π/2`: `c = cos(π/2) = 0`. -/
def minAngle12Pi : Threshold := ⟨true, 0, 1⟩

/-- Comparison of thresholds as angles: `thresholdLE a b` holds exactly when
the `minAngle` represented by `a` is at most the `minAngle` represented by
`b`, i.e. (since `minAngle ↦ cos(π - minAngle)` is monotone) when
`cos(π - minAngle_a) ≤ cos(π - minAngle_b)`. -/
def thresholdLE (a b : Threshold) : Bool :=
  match a.nonneg, b.nonneg with
  | true, true => decide (a.num * b.den ≤ b.num * a.den)
  | true, false => decide (a.num = 0 ∧ b.num = 0)
  | false, true => true
  | false, false => decide (b.num * a.den ≤ a.num * b.den)

/-- Modelled from the spec: the removability test of
`GenericPolyline::normalize` (absent from the provided sources), on exact
integer coordinates.  With incoming vector `u = P - A` and outgoing vector
`v = B - P`, the point `P` is removable iff its interior angle
`π - bendAngle` is at least `minAngle`, i.e. `cos(bendAngle) ≥
cos(π - minAngle)`; comparing squares with cleared denominators makes this
exact.  A zero-length adjacent segment is guarded to yield an interior angle
of exactly `π` (removable). -/
def removable (t : Threshold) (u v : ZVec) : Bool :=
  let d := dotZ u v
  let n := sqnormZ u * sqnormZ v
  if n = 0 then true
  else if t.nonneg then decide (0 ≤ d) && decide (t.num * n ≤ t.den * (d * d))
  else decide (0 ≤ d) || decide (t.den * (d * d) ≤ t.num * n)

/-- The removability test on the rational (floating-accumulator) coordinate
type: the same formula as `removable`, with the threshold fraction promoted
into `ℚ`. -/
def removableQ (t : Threshold) (u v : QVec) : Bool :=
  let d := dotQ u v
  let n := sqnormQ u * sqnormQ v
  if n = 0 then true
  else if t.nonneg then
    decide (0 ≤ d) && decide ((t.num : ℚ) * n ≤ (t.den : ℚ) * (d * d))
  else decide (0 ≤ d) || decide ((t.den : ℚ) * (d * d) ≤ (t.num : ℚ) * n)

/-- Coordinate difference of two integer points, `p - q` as a vector. -/
def vsubZ (p q : GenericPoint ℤ) : ZVec := (p.x - q.x, p.y - q.y)

/-- Coordinate difference of two rational points, `p - q` as a vector. -/
def vsubQ (p q : GenericPoint ℚ) : QVec := (p.x - q.x, p.y - q.y)

/-- The removability judgement of the integer instantiation: is the point `x`
with current predecessor `a` and current successor `y` removable? -/
def GenericPolyline.removableAt (t : Threshold) (a x y : GenericPoint ℤ) : Bool :=
  removable t (vsubZ x a) (vsubZ y x)

/-- The removability judgement of the rational (floating) instantiation. -/
def GenericPolyline.removableAtQ (t : Threshold) (a x y : GenericPoint ℚ) : Bool :=
  removableQ t (vsubQ x a) (vsubQ y x)

/-- Modelled from the spec: one left-to-right scan of
`GenericPolyline::normalize` over the current sequence, generic in the point
type through the removability judgement `rem a x y` (mirroring the template
parameter of the C++ source).  `prev` is the current predecessor of the head
(the source anchor before the first point, when given; `none` means the head
has no predecessor and is never evaluated); `tgt` is the virtual successor of
the last point.  A removable point is dropped immediately and the scan
continues with the updated sequence, so the dropped point's predecessor
becomes the predecessor of its successor. -/
def GenericPolyline.normStep {P : Type} (rem : P → P → P → Bool) (tgt : Option P) :
    Option P → List P → List P
  | _, [] => []
  | none, [x] => [x]
  | some a, [x] =>
    match tgt with
    | none => [x]
    | some b => if rem a x b then [] else [x]
  | none, x :: y :: r => x :: GenericPolyline.normStep rem tgt (some x) (y :: r)
  | some a, x :: y :: r =>
    if rem a x y then GenericPolyline.normStep rem tgt (some a) (y :: r)
    else x :: GenericPolyline.normStep rem tgt (some x) (y :: r)

/-- Modelled from the spec: one full pass of `GenericPolyline::normalize`,
scanning from the source anchor (if any) towards the target anchor (if any). -/
def GenericPolyline.normPass {P : Type} (rem : P → P → P → Bool)
    (src tgt : Option P) (l : List P) : List P :=
  GenericPolyline.normStep rem tgt src l

/-- Modelled from the spec: the fixpoint iteration of
`GenericPolyline::normalize`: full passes repeat until a pass removes no
point.  The fuel argument bounds the number of passes; since every recursing
pass strictly shrinks the sequence, a fuel equal to the initial length is
always sufficient. -/
def GenericPolyline.normIter {P : Type} (rem : P → P → P → Bool)
    (src tgt : Option P) : Nat → List P → List P
  | 0, l => l
  | fuel + 1, l =>
    let l2 := GenericPolyline.normPass rem src tgt l
    if l2.length < l.length then GenericPolyline.normIter rem src tgt fuel l2 else l

/-- Modelled from the spec: `GenericPolyline::normalize(sourceAnchor?,
targetAnchor?, minAngle = π)` (absent from the provided sources), the
iterative fixpoint simplification of a polygonal chain; the mutating
semantics is rendered as the function from the old to the new point
sequence. -/
def GenericPolyline.normalize {P : Type} (rem : P → P → P → Bool)
    (src tgt : Option P) (l : List P) : List P :=
  GenericPolyline.normIter rem src tgt l.length l

/-- A single non-recomputing scan over the original coordinates: each interior
point is judged against its ORIGINAL neighbors (the predecessor handed on is
always the original previous point, whether or not it was dropped).  This is
the strawman the spec proves inequivalent to `normalize`. -/
def naiveOnce {P : Type} (rem : P → P → P → Bool) : P → List P → List P
  | _, [] => []
  | _, [x] => [x]
  | a, x :: y :: r =>
    if rem a x y then naiveOnce rem x (y :: r)
    else x :: naiveOnce rem x (y :: r)

/-- The single-pass-without-recompute simplification over the original
coordinates (no anchors: endpoints are kept). -/
def naivePass {P : Type} (rem : P → P → P → Bool) : List P → List P
  | [] => []
  | x :: r => x :: naiveOnce rem x r

/-- The points of a polyline that a `normalize` run removes. -/
def GenericPolyline.removedBy {P : Type} [DecidableEq P] (rem : P → P → P → Bool)
    (src tgt : Option P) (l : List P) : List P :=
  l.filter (fun p => decide (p ∉ GenericPolyline.normalize rem src tgt l))

/-- The canonical twelve-point chain of the test suite:
`p1(1,1) p2(2,2) p3(3,3) p4(3,4) p5(4,4) p6(4,6) p7(5,5) p8(5,6) p9(6,7)
p10(7,7) p11(8,7) p12(9,7)`. -/
def chain12 : List (GenericPoint ℤ) :=
  [⟨1, 1⟩, ⟨2, 2⟩, ⟨3, 3⟩, ⟨3, 4⟩, ⟨4, 4⟩, ⟨4, 6⟩,
   ⟨5, 5⟩, ⟨5, 6⟩, ⟨6, 7⟩, ⟨7, 7⟩, ⟨8, 7⟩, ⟨9, 7⟩]

/-- Promotion of an integer point to the rational coordinate type. -/
def ptCast (p : GenericPoint ℤ) : GenericPoint ℚ := ⟨(p.x : ℚ), (p.y : ℚ)⟩

/-- Modelled from the spec: `GenericLine<PointType>` of `ogdf/basic/geometry.h`
(absent from the provided sources): an infinite line given by two
not-necessarily-distinct points; direction vector `p2 - p1`. -/
structure GenericLine (T : Type) where
  p1 : GenericPoint T
  p2 : GenericPoint T
deriving DecidableEq, Repr

/-- Modelled from the spec: the classification of the relationship between two
infinite lines returned by `GenericLine::intersection`. -/
inductive IntersectionType where
  | Point
  | Parallel
  | Overlapping
deriving DecidableEq, Repr

/-- Direction vector `p2 - p1` of a line. -/
def GenericLine.dirVec (l : GenericLine ℚ) : QVec :=
  (l.p2.x - l.p1.x, l.p2.y - l.p1.y)

/-- The vector from this line's first point to the other line's first point. -/
def GenericLine.startDiff (l1 l2 : GenericLine ℚ) : QVec :=
  (l2.p1.x - l1.p1.x, l2.p1.y - l1.p1.y)

/-- Modelled from the spec: `GenericLine::intersection` (absent from the
provided sources).  If the direction vectors' cross product is zero the lines
are parallel, and collinear (`Overlapping`) exactly when the other line's
first point lies on this line; otherwise the 2×2 system is solved and the
unique crossing point returned with classification `Point`. -/
def GenericLine.intersection (l1 l2 : GenericLine ℚ) :
    IntersectionType × Option (GenericPoint ℚ) :=
  let d1 := GenericLine.dirVec l1
  let d2 := GenericLine.dirVec l2
  let cr := crossQ d1 d2
  if cr = 0 then
    if crossQ (GenericLine.startDiff l1 l2) d1 = 0 then (IntersectionType.Overlapping, none)
    else (IntersectionType.Parallel, none)
  else
    let t1 := crossQ (GenericLine.startDiff l1 l2) d2 / cr
    (IntersectionType.Point, some ⟨l1.p1.x + t1 * d1.1, l1.p1.y + t1 * d1.2⟩)

/-- Modelled from the spec: `GenericLine::isHorizontal`, true iff
`p1.y == p2.y`. -/
def GenericLine.isHorizontal (l : GenericLine ℚ) : Bool := decide (l.p1.y = l.p2.y)

/-- Modelled from the spec: `GenericLine::isVertical`, true iff
`p1.x == p2.x`. -/
def GenericLine.isVertical (l : GenericLine ℚ) : Bool := decide (l.p1.x = l.p2.x)

/-- The cross product of any vector with itself vanishes. -/
theorem crossQ_self (u : QVec) : crossQ u u = 0 := by
  simp [crossQ, mul_comm]

/-- Claim C1: on the canonical twelve-point chain, `normalize` with
`minAngle = 3π/4` and no anchors leaves exactly `{p1,p4,p5,p6,p7,p9,p12}`;
in particular `p9 = (6,7)` survives, while a single non-recomputing pass over
the original coordinates produces a different (smaller) result. -/
theorem normalize_chain12_minAngle34Pi :
    GenericPolyline.normalize (GenericPolyline.removableAt minAngle34Pi) none none chain12 =
      [⟨1, 1⟩, ⟨3, 4⟩, ⟨4, 4⟩, ⟨4, 6⟩, ⟨5, 5⟩, ⟨6, 7⟩, ⟨9, 7⟩] ∧
    (⟨6, 7⟩ : GenericPoint ℤ) ∈
      GenericPolyline.normalize (GenericPolyline.removableAt minAngle34Pi) none none chain12 ∧
    naivePass (GenericPolyline.removableAt minAngle34Pi) chain12 ≠
      GenericPolyline.normalize (GenericPolyline.removableAt minAngle34Pi) none none chain12 := by
  refine ⟨by decide, by decide, by decide⟩

/-- Claim C2: on the canonical twelve-point chain, `normalize` with the
default threshold `minAngle = π` and no anchors removes exactly the
exactly-collinear interior points, leaving `{p1,p3,p4,p5,p6,p7,p8,p9,p12}`. -/
theorem normalize_chain12_default :
    GenericPolyline.normalize (GenericPolyline.removableAt minAnglePi) none none chain12 =
      [⟨1, 1⟩, ⟨3, 3⟩, ⟨3, 4⟩, ⟨4, 4⟩, ⟨4, 6⟩, ⟨5, 5⟩, ⟨5, 6⟩, ⟨6, 7⟩, ⟨9, 7⟩] := by
  decide

/-- Claim C3: with source/target anchors equal to the chain's own first/last
points and the default threshold, the zero-length virtual anchor segments
make both original endpoints removable, leaving `{p3,p4,p5,p6,p7,p8,p9}`. -/
theorem normalize_chain12_anchors_eq_endpoints :
    GenericPolyline.normalize (GenericPolyline.removableAt minAnglePi)
      (some ⟨1, 1⟩) (some ⟨9, 7⟩) chain12 =
      [⟨3, 3⟩, ⟨3, 4⟩, ⟨4, 4⟩, ⟨4, 6⟩, ⟨5, 5⟩, ⟨5, 6⟩, ⟨6, 7⟩] := by
  decide

/-- Claim C4: with source anchor `(0,0)`, target anchor `(9,8)` and
`minAngle = π/2`, every point of the canonical chain (endpoints included)
becomes removable and the result is the empty polyline. -/
theorem normalize_chain12_anchors_halfPi_empty :
    GenericPolyline.normalize (GenericPolyline.removableAt minAngle12Pi)
      (some ⟨0, 0⟩) (some ⟨9, 8⟩) chain12 = [] := by
  decide

/-- Claim C5 (counterexample): removal is NOT monotone in the threshold
across a whole `normalize` run.  On the chain `(0,0) (10,0) (10,1) (9,4)`
with thresholds `π/2 ≤ 3π/4`, the run at `3π/4` keeps `(10,0)` (90° interior
angle) and removes `(10,1)` (its bend is only about 18°), while the run at
`π/2` first removes `(10,0)`, which sharpens `(10,1)` past the threshold so
that `(10,1)` survives: a point removed at the larger threshold is not
removed at the smaller one. -/
theorem normalize_removal_not_monotone :
    thresholdLE minAngle12Pi minAngle34Pi = true ∧
    (⟨10, 1⟩ : GenericPoint ℤ) ∈
      GenericPolyline.removedBy (GenericPolyline.removableAt minAngle34Pi) none none
        [⟨0, 0⟩, ⟨10, 0⟩, ⟨10, 1⟩, ⟨9, 4⟩] ∧
    (⟨10, 1⟩ : GenericPoint ℤ) ∉
      GenericPolyline.removedBy (GenericPolyline.removableAt minAngle12Pi) none none
        [⟨0, 0⟩, ⟨10, 0⟩, ⟨10, 1⟩, ⟨9, 4⟩] := by
  refine ⟨by decide, by decide, by decide⟩

/-- Claim C5 (amended): the removability test itself is monotone in the
threshold: for valid thresholds `a ≤ b` (as angles), every point
configuration removable at threshold `b` is removable at threshold `a`. -/
theorem removable_mono (a b : Threshold) (u v : ZVec)
    (had : 0 < a.den) (hbd : 0 < b.den)
    (hab : thresholdLE a b = true) (h : removable b u v = true) :
    removable a u v = true := by
  have hnu : 0 ≤ sqnormZ u := by
    simp only [sqnormZ]; nlinarith [mul_self_nonneg u.1, mul_self_nonneg u.2]
  have hnv : 0 ≤ sqnormZ v := by
    simp only [sqnormZ]; nlinarith [mul_self_nonneg v.1, mul_self_nonneg v.2]
  have hn : 0 ≤ sqnormZ u * sqnormZ v := mul_nonneg hnu hnv
  simp only [removable] at h ⊢
  by_cases h0 : sqnormZ u * sqnormZ v = 0
  · simp [h0]
  · rw [if_neg h0] at h ⊢
    obtain ⟨an, anum, aden⟩ := a
    obtain ⟨bn, bnum, bden⟩ := b
    simp only at had hbd hn
    simp only [thresholdLE] at hab
    cases an <;> cases bn <;>
      simp only [Bool.false_eq_true, Bool.and_eq_true, Bool.or_eq_true, decide_eq_true_eq,
        if_true, if_false] at h hab ⊢
    · -- both thresholds negative: `bnum * aden ≤ anum * bden`
      rcases h with h | h
      · exact Or.inl h
      · refine Or.inr ?_
        have key : (aden * (dotZ u v * dotZ u v)) * bden ≤
            (anum * (sqnormZ u * sqnormZ v)) * bden := by
          nlinarith [mul_le_mul_of_nonneg_left h (le_of_lt had),
            mul_le_mul_of_nonneg_right hab hn]
        exact le_of_mul_le_mul_right key hbd
    · -- `a` negative, `b` nonnegative
      exact Or.inl h.1
    · -- `a` nonnegative, `b` negative: both cosines are zero
      obtain ⟨ha0, hb0⟩ := hab
      subst ha0; subst hb0
      constructor
      · rcases h with h | h
        · exact h
        · have hd0 : dotZ u v = 0 := by nlinarith [mul_self_nonneg (dotZ u v)]
          simp [hd0]
      · have : 0 ≤ aden * (dotZ u v * dotZ u v) :=
          mul_nonneg (le_of_lt had) (mul_self_nonneg _)
        linarith
    · -- both thresholds nonnegative: `anum * bden ≤ bnum * aden`
      refine ⟨h.1, ?_⟩
      have key : (anum * (sqnormZ u * sqnormZ v)) * bden ≤
          (aden * (dotZ u v * dotZ u v)) * bden := by
        nlinarith [mul_le_mul_of_nonneg_left h.2 (le_of_lt had),
          mul_le_mul_of_nonneg_right hab hn]
      exact le_of_mul_le_mul_right key hbd

/-- Witness for the amended claim C5 at concrete data: `π/2 ≤ 3π/4` as
thresholds, and the configuration `u = (0,1)`, `v = (1,1)` (a 45° bend,
interior angle `3π/4`) is removable at `3π/4`, hence also at `π/2`. -/
theorem removable_mono_witness :
    0 < minAngle12Pi.den ∧ 0 < minAngle34Pi.den ∧
    thresholdLE minAngle12Pi minAngle34Pi = true ∧
    removable minAngle34Pi (0, 1) (1, 1) = true ∧
    removable minAngle12Pi (0, 1) (1, 1) = true :=
  ⟨by decide, by decide, by decide, by decide,
    removable_mono minAngle12Pi minAngle34Pi (0, 1) (1, 1)
      (by decide) (by decide) (by decide) (by decide)⟩

/-- A single pass never lengthens the sequence. -/
theorem GenericPolyline.normStep_length_le {P : Type} (rem : P → P → P → Bool)
    (tgt : Option P) :
    ∀ (l : List P) (prev : Option P),
      (GenericPolyline.normStep rem tgt prev l).length ≤ l.length := by
  intro l
  induction l with
  | nil => intro prev; simp [GenericPolyline.normStep]
  | cons x xs ih =>
    intro prev
    cases xs with
    | nil =>
      cases prev with
      | none => simp [GenericPolyline.normStep]
      | some a =>
        cases tgt with
        | none => simp [GenericPolyline.normStep]
        | some b =>
          simp only [GenericPolyline.normStep]
          split <;> simp
    | cons y r =>
      cases prev with
      | none =>
        simpa [GenericPolyline.normStep] using ih (some x)
      | some a =>
        simp only [GenericPolyline.normStep]
        split
        · exact le_trans (ih (some a)) (Nat.le_succ _)
        · simpa using ih (some x)

/-- A pass that does not shrink the sequence leaves it unchanged. -/
theorem GenericPolyline.normStep_eq_of_length {P : Type} (rem : P → P → P → Bool)
    (tgt : Option P) :
    ∀ (l : List P) (prev : Option P),
      (GenericPolyline.normStep rem tgt prev l).length = l.length →
      GenericPolyline.normStep rem tgt prev l = l := by
  intro l
  induction l with
  | nil => intro prev _; simp [GenericPolyline.normStep]
  | cons x xs ih =>
    intro prev hlen
    cases xs with
    | nil =>
      cases prev with
      | none => simp [GenericPolyline.normStep]
      | some a =>
        cases tgt with
        | none => simp [GenericPolyline.normStep]
        | some b =>
          simp only [GenericPolyline.normStep] at hlen ⊢
          split at hlen
          · simp at hlen
          · split <;> simp_all
    | cons y r =>
      cases prev with
      | none =>
        simp only [GenericPolyline.normStep, List.length_cons] at hlen ⊢
        have := ih (some x) (by simp only [List.length_cons]; omega)
        simp [this]
      | some a =>
        simp only [GenericPolyline.normStep] at hlen ⊢
        split at hlen
        · have hle := GenericPolyline.normStep_length_le rem tgt (y :: r) (some a)
          simp only [List.length_cons] at hlen hle
          omega
        · simp only [List.length_cons] at hlen
          have := ih (some x) (by simp only [List.length_cons]; omega)
          split <;> simp_all

/-- The fixpoint iteration never lengthens the sequence. -/
theorem GenericPolyline.normIter_length_le {P : Type} (rem : P → P → P → Bool)
    (src tgt : Option P) :
    ∀ (fuel : Nat) (l : List P),
      (GenericPolyline.normIter rem src tgt fuel l).length ≤ l.length := by
  intro fuel
  induction fuel with
  | zero => intro l; simp [GenericPolyline.normIter]
  | succ n ih =>
    intro l
    simp only [GenericPolyline.normIter]
    split
    · exact le_trans (ih _) (Nat.le_of_lt (by assumption))
    · exact Nat.le_refl _

/-- Iterating from a fixpoint of the pass returns it unchanged. -/
theorem GenericPolyline.normIter_of_fixed {P : Type} (rem : P → P → P → Bool)
    (src tgt : Option P) (l : List P)
    (h : GenericPolyline.normPass rem src tgt l = l) :
    ∀ (fuel : Nat), GenericPolyline.normIter rem src tgt fuel l = l := by
  intro fuel
  cases fuel with
  | zero => simp [GenericPolyline.normIter]
  | succ n => simp [GenericPolyline.normIter, h]

/-- With sufficient fuel the iteration reaches a fixpoint of the pass:
the resulting sequence is left unchanged by a further pass. -/
theorem GenericPolyline.normPass_normIter {P : Type} (rem : P → P → P → Bool)
    (src tgt : Option P) :
    ∀ (fuel : Nat) (l : List P), l.length ≤ fuel →
      GenericPolyline.normPass rem src tgt (GenericPolyline.normIter rem src tgt fuel l) =
        GenericPolyline.normIter rem src tgt fuel l := by
  intro fuel
  induction fuel with
  | zero =>
    intro l hl
    have : l = [] := List.eq_nil_of_length_eq_zero (Nat.le_zero.mp hl)
    subst this
    simp [GenericPolyline.normIter, GenericPolyline.normPass, GenericPolyline.normStep]
  | succ n ih =>
    intro l hl
    simp only [GenericPolyline.normIter]
    split
    · exact ih _ (by omega)
    · have hle := GenericPolyline.normStep_length_le rem tgt l src
      have heq : (GenericPolyline.normPass rem src tgt l).length = l.length := by
        simp only [GenericPolyline.normPass] at *
        omega
      exact GenericPolyline.normStep_eq_of_length rem tgt l src heq

/-- Claim C6: `normalize` is idempotent: applying it twice with the same
anchors and threshold yields the same sequence as applying it once. -/
theorem normalize_idempotent (P : Type) (rem : P → P → P → Bool)
    (src tgt : Option P) (l : List P) :
    GenericPolyline.normalize rem src tgt (GenericPolyline.normalize rem src tgt l) =
      GenericPolyline.normalize rem src tgt l := by
  have hfix : GenericPolyline.normPass rem src tgt (GenericPolyline.normalize rem src tgt l) =
      GenericPolyline.normalize rem src tgt l :=
    GenericPolyline.normPass_normIter rem src tgt l.length l (Nat.le_refl _)
  exact GenericPolyline.normIter_of_fixed rem src tgt _ hfix _

/-- Claim C7: `normalize` always terminates and has no failure mode: it is a
total function; each full pass either leaves the sequence unchanged (ending
the iteration) or removes at least one point, the pass never lengthens the
sequence, and the final length is at most the initial length. -/
theorem normalize_terminates (P : Type) (rem : P → P → P → Bool)
    (src tgt : Option P) (l : List P) :
    (GenericPolyline.normPass rem src tgt l = l ∨
      (GenericPolyline.normPass rem src tgt l).length < l.length) ∧
    (GenericPolyline.normPass rem src tgt l).length ≤ l.length ∧
    (GenericPolyline.normalize rem src tgt l).length ≤ l.length := by
  have hle := GenericPolyline.normStep_length_le rem tgt l src
  refine ⟨?_, hle, GenericPolyline.normIter_length_le rem src tgt l.length l⟩
  rcases Nat.eq_or_lt_of_le hle with h | h
  · exact Or.inl (GenericPolyline.normStep_eq_of_length rem tgt l src h)
  · exact Or.inr h

/-- A coordinate-type promotion that preserves the removability judgement
commutes with a single pass. -/
theorem GenericPolyline.normStep_map {P R : Type} (f : P → R)
    (remP : P → P → P → Bool) (remR : R → R → R → Bool)
    (hf : ∀ a x y, remR (f a) (f x) (f y) = remP a x y) (tgt : Option P) :
    ∀ (l : List P) (prev : Option P),
      List.map f (GenericPolyline.normStep remP tgt prev l) =
        GenericPolyline.normStep remR (Option.map f tgt) (Option.map f prev)
          (List.map f l) := by
  intro l
  induction l with
  | nil => intro prev; cases prev <;> simp [GenericPolyline.normStep]
  | cons x xs ih =>
    intro prev
    cases xs with
    | nil =>
      cases prev with
      | none => simp [GenericPolyline.normStep]
      | some a =>
        cases tgt with
        | none => simp [GenericPolyline.normStep]
        | some b =>
          simp only [List.map_cons, List.map_nil, Option.map_some, Option.map, GenericPolyline.normStep]
          rw [hf]
          split <;> simp
    | cons y r =>
      cases prev with
      | none =>
        simp only [List.map_cons, Option.map_none, GenericPolyline.normStep]
        simpa using ih (some x)
      | some a =>
        simp only [List.map_cons, Option.map_some, GenericPolyline.normStep, hf]
        split
        · simpa using ih (some a)
        · simpa using ih (some x)

/-- A coordinate-type promotion that preserves the removability judgement
commutes with the fixpoint iteration. -/
theorem GenericPolyline.normIter_map {P R : Type} (f : P → R)
    (remP : P → P → P → Bool) (remR : R → R → R → Bool)
    (hf : ∀ a x y, remR (f a) (f x) (f y) = remP a x y) (src tgt : Option P) :
    ∀ (fuel : Nat) (l : List P),
      List.map f (GenericPolyline.normIter remP src tgt fuel l) =
        GenericPolyline.normIter remR (Option.map f src) (Option.map f tgt) fuel
          (List.map f l) := by
  intro fuel
  induction fuel with
  | zero => intro l; simp [GenericPolyline.normIter]
  | succ n ih =>
    intro l
    simp only [GenericPolyline.normIter, GenericPolyline.normPass]
    rw [← GenericPolyline.normStep_map f remP remR hf tgt l src]
    simp only [List.length_map]
    split
    · exact ih _
    · rfl

/-- A coordinate-type promotion that preserves the removability judgement
commutes with `normalize`. -/
theorem normalize_map {P R : Type} (f : P → R)
    (remP : P → P → P → Bool) (remR : R → R → R → Bool)
    (hf : ∀ a x y, remR (f a) (f x) (f y) = remP a x y) (src tgt : Option P)
    (l : List P) :
    List.map f (GenericPolyline.normalize remP src tgt l) =
      GenericPolyline.normalize remR (Option.map f src) (Option.map f tgt)
        (List.map f l) := by
  simp only [GenericPolyline.normalize, List.length_map]
  exact GenericPolyline.normIter_map f remP remR hf src tgt l.length l

/-- On promoted integer points, the rational (floating-accumulator)
removability judgement agrees exactly with the integer one. -/
theorem removableAtQ_ptCast (t : Threshold) (a x y : GenericPoint ℤ) :
    GenericPolyline.removableAtQ t (ptCast a) (ptCast x) (ptCast y) =
      GenericPolyline.removableAt t a x y := by
  have hd : dotQ (vsubQ (ptCast x) (ptCast a)) (vsubQ (ptCast y) (ptCast x)) =
      ((dotZ (vsubZ x a) (vsubZ y x) : ℤ) : ℚ) := by
    simp only [dotQ, dotZ, vsubQ, vsubZ, ptCast]
    push_cast
    ring
  have hn : sqnormQ (vsubQ (ptCast x) (ptCast a)) *
        sqnormQ (vsubQ (ptCast y) (ptCast x)) =
      ((sqnormZ (vsubZ x a) * sqnormZ (vsubZ y x) : ℤ) : ℚ) := by
    simp only [sqnormQ, sqnormZ, vsubQ, vsubZ, ptCast]
    push_cast
    ring
  simp only [GenericPolyline.removableAtQ, GenericPolyline.removableAt,
    removableQ, removable]
  rw [hd, hn]
  by_cases hz : sqnormZ (vsubZ x a) * sqnormZ (vsubZ y x) = 0
  · rw [if_pos (by exact_mod_cast hz), if_pos hz]
  · rw [if_neg (by exact_mod_cast hz), if_neg hz]
    have b1 : decide ((0 : ℚ) ≤ ((dotZ (vsubZ x a) (vsubZ y x) : ℤ) : ℚ)) =
        decide (0 ≤ dotZ (vsubZ x a) (vsubZ y x)) :=
      decide_eq_decide.mpr (by exact_mod_cast Iff.rfl)
    have b2 : decide ((t.num : ℚ) * ((sqnormZ (vsubZ x a) * sqnormZ (vsubZ y x) : ℤ) : ℚ) ≤
          (t.den : ℚ) * (((dotZ (vsubZ x a) (vsubZ y x) : ℤ) : ℚ) *
            ((dotZ (vsubZ x a) (vsubZ y x) : ℤ) : ℚ))) =
        decide (t.num * (sqnormZ (vsubZ x a) * sqnormZ (vsubZ y x)) ≤
          t.den * (dotZ (vsubZ x a) (vsubZ y x) * dotZ (vsubZ x a) (vsubZ y x))) :=
      decide_eq_decide.mpr (by exact_mod_cast Iff.rfl)
    have b3 : decide ((t.den : ℚ) * (((dotZ (vsubZ x a) (vsubZ y x) : ℤ) : ℚ) *
            ((dotZ (vsubZ x a) (vsubZ y x) : ℤ) : ℚ)) ≤
          (t.num : ℚ) * ((sqnormZ (vsubZ x a) * sqnormZ (vsubZ y x) : ℤ) : ℚ)) =
        decide (t.den * (dotZ (vsubZ x a) (vsubZ y x) * dotZ (vsubZ x a) (vsubZ y x)) ≤
          t.num * (sqnormZ (vsubZ x a) * sqnormZ (vsubZ y x))) :=
      decide_eq_decide.mpr (by exact_mod_cast Iff.rfl)
    rw [b1, b2, b3]

/-- Claim C10: coordinate-type independence on integer inputs: for every
polyline with integer coordinates and any anchors and threshold, the integer
instantiation of `normalize` and the rational (floating) instantiation on the
promoted input produce the same sequence of coordinate values. -/
theorem normalize_int_rat_agree (t : Threshold) (src tgt : Option (GenericPoint ℤ))
    (l : List (GenericPoint ℤ)) :
    List.map ptCast
        (GenericPolyline.normalize (GenericPolyline.removableAt t) src tgt l) =
      GenericPolyline.normalize (GenericPolyline.removableAtQ t)
        (Option.map ptCast src) (Option.map ptCast tgt) (List.map ptCast l) :=
  normalize_map ptCast (GenericPolyline.removableAt t) (GenericPolyline.removableAtQ t)
    (removableAtQ_ptCast t) src tgt l

/-- Claim C8: whenever the two lines' direction-vector cross product is zero
and the other line's first point is collinear with this line, the
classification is `Overlapping`; in particular a line intersected with
itself (equivalently, two identical lines) classifies as `Overlapping`. -/
theorem intersection_overlapping_cases :
    (∀ l1 l2 : GenericLine ℚ,
      crossQ (GenericLine.dirVec l1) (GenericLine.dirVec l2) = 0 →
      crossQ (GenericLine.startDiff l1 l2) (GenericLine.dirVec l1) = 0 →
      (GenericLine.intersection l1 l2).1 = IntersectionType.Overlapping) ∧
    (∀ l : GenericLine ℚ,
      (GenericLine.intersection l l).1 = IntersectionType.Overlapping) := by
  constructor
  · intro l1 l2 h1 h2
    simp [GenericLine.intersection, h1, h2]
  · intro l
    have h1 : crossQ (GenericLine.dirVec l) (GenericLine.dirVec l) = 0 := crossQ_self _
    have h2 : crossQ (GenericLine.startDiff l l) (GenericLine.dirVec l) = 0 := by
      simp [GenericLine.startDiff, crossQ]
    simp [GenericLine.intersection, h1, h2]

/-- Witness for claim C8 at concrete data: two identical lines through
`(0,0)` and `(1,1)` classify as `Overlapping`. -/
theorem intersection_overlapping_cases_witness :
    (GenericLine.intersection ⟨⟨0, 0⟩, ⟨1, 1⟩⟩ ⟨⟨0, 0⟩, ⟨1, 1⟩⟩).1 =
      IntersectionType.Overlapping :=
  intersection_overlapping_cases.1 ⟨⟨0, 0⟩, ⟨1, 1⟩⟩ ⟨⟨0, 0⟩, ⟨1, 1⟩⟩
    (by norm_num [crossQ, GenericLine.dirVec])
    (by norm_num [crossQ, GenericLine.startDiff, GenericLine.dirVec])

/-- Claim C9: `isHorizontal` is true iff `p1.y = p2.y` and `isVertical` is
true iff `p1.x = p2.x`; for a degenerate line built from two equal points
both predicates are simultaneously true, so they are not mutually
exclusive. -/
theorem degenerate_line_horizontal_vertical :
    (∀ p : GenericPoint ℚ, GenericLine.isHorizontal ⟨p, p⟩ = true ∧
      GenericLine.isVertical ⟨p, p⟩ = true) ∧
    (∀ l : GenericLine ℚ,
      (GenericLine.isHorizontal l = true ↔ l.p1.y = l.p2.y) ∧
      (GenericLine.isVertical l = true ↔ l.p1.x = l.p2.x)) := by
  constructor
  · intro p
    exact ⟨by simp [GenericLine.isHorizontal], by simp [GenericLine.isVertical]⟩
  · intro l
    exact ⟨by simp [GenericLine.isHorizontal], by simp [GenericLine.isVertical]⟩
